import Mathlib

/-!
Verification of the loggerect source-location tooling: a shallow embedding of
the compile-time call-site rewriter (the unplugin `transformCode` and its
helpers) and of the runtime stack-location resolver (`parseStackFrame`,
`isInternalFrame`, `getSourceLocation`), together with theorems settling the
specification claims about them.

Strings are modelled as `List Char`.  JavaScript `-1` sentinel results are
modelled as `none : Option Nat`.
-/

set_option maxHeartbeats 2000000
set_option maxRecDepth 4096

namespace Loggerect

/-- Character list of a string literal. -/
def chars (s : String) : List Char :=
  s.data

/-- The single-quote character. -/
def squote : Char := Char.ofNat 39

/-- The backtick character. -/
def btick : Char := Char.ofNat 96

/-- The opening-brace character. -/
def obrace : Char := '\x7b'

/-- The closing-brace character. -/
def cbrace : Char := '\x7d'

/-- JavaScript whitespace (the ASCII part of the regex class \s). -/
def isJsWs (c : Char) : Bool :=
  c = ' ' || c = '\t' || c = '\n' || c = '\r' || c = '\x0b' || c = '\x0c'

/-- JavaScript word character (the regex class \w). -/
def isWordChar (c : Char) : Bool :=
  c.isAlphanum || c = '_'

/-- ASCII decimal digit (the regex class \d). -/
def isDigitC (c : Char) : Bool :=
  c.isDigit

/-- Character matched by the regex dot (anything but a newline). -/
def isDotC (c : Char) : Bool :=
  c ≠ '\n'

/-- Does the pattern occur in the haystack starting at index `i`? -/
def subAt (hay pat : List Char) (i : Nat) : Bool :=
  (hay.drop i).take pat.length == pat

/-- JavaScript `String.prototype.includes` for a nonempty pattern. -/
def containsSub (hay pat : List Char) : Bool :=
  (List.range (hay.length + 1)).any (fun i => subAt hay pat i)

/-- First index at which the pattern occurs (`String.prototype.indexOf`). -/
def indexOfSub (hay pat : List Char) : Option Nat :=
  (List.range (hay.length + 1)).findSome?
    (fun i => if subAt hay pat i then some i else none)

/-- Last index at which the pattern occurs (`String.prototype.lastIndexOf`). -/
def lastIndexOfSub (hay pat : List Char) : Option Nat :=
  (List.range (hay.length + 1)).foldl
    (fun acc i => if subAt hay pat i then some i else acc) none

/-- JavaScript `lastIndexOf(char, fromIndex)`: the largest index `≤ fromIndex`
holding `c`. -/
def lastIndexOfCharUpTo (hay : List Char) (c : Char) (fromIdx : Nat) : Option Nat :=
  (List.range (min (fromIdx + 1) hay.length)).foldl
    (fun acc i => if hay.get? i = some c then some i else acc) none

/-- Split a character list on a separator character, JavaScript `split` style
(never returns an empty list of pieces). -/
def splitOnChar (c : Char) : List Char → List (List Char)
  | [] => [[]]
  | a :: rest =>
    match splitOnChar c rest with
    | [] => if a = c then [[], []] else [[a]]
    | h :: t => if a = c then [] :: h :: t else (a :: h) :: t

/-- Split on a character predicate (for the regex split /[/\\]/). -/
def splitOnPred (p : Char → Bool) : List Char → List (List Char)
  | [] => [[]]
  | a :: rest =>
    match splitOnPred p rest with
    | [] => if p a then [[], []] else [[a]]
    | h :: t => if p a then [] :: h :: t else (a :: h) :: t

/-- JavaScript `String.prototype.trim` (ASCII whitespace). -/
def trimJs (l : List Char) : List Char :=
  ((l.dropWhile isJsWs).reverse.dropWhile isJsWs).reverse

/-- The slice `code.slice(a, b)` of a JavaScript string. -/
def slice (code : List Char) (a b : Nat) : List Char :=
  (code.take b).drop a

/-- Lower-case a character list (for case-insensitive pattern tests). -/
def toLowerL (l : List Char) : List Char :=
  l.map Char.toLower

/-! ## Embedding of the unplugin rewriter (`transformCode` and helpers) -/

/-- Hook names monitored by the rewriter (`LOGRECT_HOOKS`). -/
def LOGRECT_HOOKS : List String :=
  ["useLogger", "useLifecycleLogger", "useRenderLogger", "usePropChangeLogger",
   "useStateLogger", "useEffectLogger", "useCallbackLogger", "useMemoLogger",
   "useTimer", "useConditionalLogger", "useWhyDidYouRender"]

/-- HOC names monitored by the rewriter (`LOGRECT_HOCS`). -/
def LOGRECT_HOCS : List String :=
  ["withLogger", "withLoggerRef"]

/-- Logger method names (`LOGGER_METHODS`). -/
def LOGGER_METHODS : List String :=
  ["trace", "debug", "info", "warn", "error", "log"]

/-- Path markers used by the unplugin `cleanFilePath`. -/
def upMarkers : List (List Char) :=
  [chars "/src/", chars "/app/", chars "/pages/", chars "/components/", chars "/lib/"]

/-- Helper for `cleanFilePathUP`: apply the first marker that occurs
(`lastIndexOf` + slice + break). -/
def applyFirstMarker (s : List Char) : List (List Char) → List Char
  | [] => s
  | m :: ms =>
    match lastIndexOfSub s m with
    | some i => s.drop (i + 1)
    | none => applyFirstMarker s ms

/-- The unplugin `cleanFilePath`. -/
def cleanFilePathUP (filename : List Char) : List Char :=
  if filename = [] then filename
  else
    let cleaned := applyFirstMarker filename upMarkers
    if cleaned = filename then
      let parts := splitOnChar '/' cleaned
      if 2 < parts.length then
        List.intercalate [('/' : Char)] (parts.drop (parts.length - 2))
      else cleaned
    else cleaned

/-- Newline-counting loop of `getLineNumber`. -/
def glCount : List Char → Nat → Nat
  | [], line => line
  | c :: rest, line => glCount rest (if c = '\n' then line + 1 else line)

/-- `getLineNumber`: 1-based line of a buffer offset (the loop runs while
`i < position && i < code.length`). -/
def getLineNumber (code : List Char) (pos : Nat) : Nat :=
  glCount (code.take pos) 1

/-- A quote character (double quote, single quote, or backtick). -/
def isQuoteChar (c : Char) : Bool :=
  c = '"' || c = squote || c = btick

/-- Loop of `isInsideStringOrComment` over the character suffix at the current
index: `n` is the number of loop iterations left (`position - i`), `prv` the
previous character, `strq` the open quote, `single`/`multi` the open comment
flags.  Beyond the end of the buffer the JavaScript loop keeps iterating on
undefined characters without changing state, so the state is returned. -/
def isicL : List Char → Nat → Option Char → Option Char → Bool → Bool → Bool
  | _, 0, _, strq, single, multi => strq.isSome || single || multi
  | [], Nat.succ _, _, strq, single, multi => strq.isSome || single || multi
  | c :: rest, Nat.succ n, prv, strq, single, multi =>
    let nxt := rest.head?
    if single then
      if c = '\n' then isicL rest n (some c) strq false multi
      else isicL rest n (some c) strq true multi
    else if multi then
      if c = '*' ∧ nxt = some '/' then
        match n, rest with
        | 0, _ => strq.isSome || single
        | Nat.succ n', _ :: rest' => isicL rest' n' nxt strq single false
        | Nat.succ _, [] => strq.isSome || single
      else isicL rest n (some c) strq single true
    else if strq.isSome then
      if some c = strq ∧ prv ≠ some '\\' then isicL rest n (some c) none single multi
      else isicL rest n (some c) strq single multi
    else if c = '/' ∧ nxt = some '/' then
      match n, rest with
      | 0, _ => true
      | Nat.succ n', _ :: rest' => isicL rest' n' nxt strq true multi
      | Nat.succ _, [] => false
    else if c = '/' ∧ nxt = some '*' then
      match n, rest with
      | 0, _ => true
      | Nat.succ n', _ :: rest' => isicL rest' n' nxt strq single true
      | Nat.succ _, [] => false
    else if isQuoteChar c then isicL rest n (some c) (some c) single multi
    else isicL rest n (some c) strq single multi

/-- `isInsideStringOrComment`: is the offset inside a string literal, template
literal, line comment or block comment? -/
def isInsideStringOrComment (code : List Char) (pos : Nat) : Bool :=
  isicL code pos none none false false

/-- Loop of `findClosingParen` over the character suffix at index `i`: scans
with a paren depth counter while tracking string and template state exactly as
the JavaScript loop does. -/
def fcpL : List Char → Nat → Nat → Option Char → Option Char → Bool → Nat → Option Nat
  | [], i, depth, _, _, _, _ => if depth = 0 then some (i - 1) else none
  | c :: rest, i, depth, prv, strq, inT, tD =>
    if depth = 0 then some (i - 1)
    else
      let nxt := rest.head?
      if strq = none ∧ inT = false ∧ isQuoteChar c then
        if c = btick then fcpL rest (i + 1) depth (some c) none true 1
        else fcpL rest (i + 1) depth (some c) (some c) false 0
      else if strq.isSome ∧ some c = strq ∧ prv ≠ some '\\' then
        fcpL rest (i + 1) depth (some c) none inT tD
      else if inT then
        if c = btick ∧ prv ≠ some '\\' then
          if tD - 1 = 0 then fcpL rest (i + 1) depth (some c) strq false (tD - 1)
          else fcpL rest (i + 1) depth (some c) strq true (tD - 1)
        else if c = '$' ∧ nxt = some obrace then
          fcpL rest (i + 1) depth (some c) strq true (tD + 1)
        else fcpL rest (i + 1) depth (some c) strq true tD
      else if strq = none ∧ inT = false then
        if c = '(' then fcpL rest (i + 1) (depth + 1) (some c) strq inT tD
        else if c = ')' then fcpL rest (i + 1) (depth - 1) (some c) strq inT tD
        else fcpL rest (i + 1) depth (some c) strq inT tD
      else fcpL rest (i + 1) depth (some c) strq inT tD

/-- `findClosingParen`: matching close paren starting after an open paren
(depth 1); `none` models the JavaScript `-1`. -/
def findClosingParen (code : List Char) (startIndex : Nat) : Option Nat :=
  fcpL (code.drop startIndex) startIndex 1
    (if startIndex = 0 then none else code.get? (startIndex - 1)) none false 0

/-- Reference scanner used to characterize `findClosingParen` on quote-free
input: position of the close paren that brings the depth accumulator to zero,
relative to the start of the list. -/
def plainCloseL : List Char → Nat → Option Nat
  | [], _ => none
  | c :: cs, d =>
    if c = '(' then (plainCloseL cs (d + 1)).map (· + 1)
    else if c = ')' then
      if d = 1 then some 0 else (plainCloseL cs (d - 1)).map (· + 1)
    else (plainCloseL cs d).map (· + 1)

/-- One regex match of a call pattern: `idx` is `match.index`, `stop` is the
index just past the matched text (so the open paren sits at `stop - 1`), and
`name` is the captured identifier. -/
structure RMatch where
  idx : Nat
  stop : Nat
  name : String
deriving DecidableEq, Repr

/-- Does a match of `function\s+` end exactly at offset `i` (the negative
lookbehind of the call pattern)? -/
def funcKwEndsAt (code : List Char) (i : Nat) : Bool :=
  (List.range (i + 1)).any fun k =>
    decide (1 ≤ k) && decide (k + 8 ≤ i) &&
    subAt code (chars "function") (i - 8 - k) &&
    ((List.range' (i - k) k).all fun j =>
      match code.get? j with
      | some c => isJsWs c
      | none => false)

/-- Word boundary before offset `i` (the name's first character is a word
character, so the boundary holds iff the previous character is not one). -/
def wordBoundaryAt (code : List Char) (i : Nat) : Bool :=
  match i with
  | 0 => true
  | Nat.succ j =>
    match code.get? j with
    | some c => !isWordChar c
    | none => true

/-- Scan the interior of a generic suffix `<...>` supporting one level of
nesting (`(?:[^<>]|<[^<>]*>)*>`): the flag records being inside a nested
bracket group; returns the number of characters consumed including the
closing bracket. -/
def genScanL : List Char → Bool → Option Nat
  | [], _ => none
  | c :: rest, false =>
    if c = '>' then some 1
    else if c = '<' then (genScanL rest true).map (· + 1)
    else (genScanL rest false).map (· + 1)
  | c :: rest, true =>
    if c = '>' then (genScanL rest false).map (· + 1)
    else if c = '<' then none
    else (genScanL rest true).map (· + 1)

/-- The optional generic suffix `(?:<(?:[^<>]|<[^<>]*>)*>)?` at position `p`;
returns the index just past the closing bracket. -/
def genericAt (code : List Char) (p : Nat) : Option Nat :=
  if code.get? p = some '<' then
    (genScanL (code.drop (p + 1)) false).map (fun k => p + 1 + k)
  else none

/-- Length of the whitespace run starting at `q`. -/
def wsRun (code : List Char) (q : Nat) : Nat :=
  ((code.drop q).takeWhile isJsWs).length

/-- Match `\s*\(` at position `q`; returns the index just past the paren. -/
def wsParen (code : List Char) (q : Nat) : Option Nat :=
  let r := q + wsRun code q
  if code.get? r = some '(' then some (r + 1) else none

/-- Match the tail of a call pattern (optional generic, then `\s*\(`) at `p`,
with regex backtracking: a matched generic is abandoned if the paren does not
follow it. -/
def callTail (code : List Char) (p : Nat) : Option Nat :=
  match genericAt code p with
  | some q =>
    match wsParen code q with
    | some e => some e
    | none => wsParen code p
  | none => wsParen code p

/-- Match the hook/HOC call pattern
`(?<!function\s+)\b(name…)(?:<…>)?\s*\(` at position `i`. -/
def matchCallAt (code : List Char) (names : List String) (i : Nat) : Option RMatch :=
  if funcKwEndsAt code i then none
  else if !wordBoundaryAt code i then none
  else names.findSome? fun nm =>
    if subAt code (chars nm) i then
      (callTail code (i + (chars nm).length)).map fun e => ⟨i, e, nm⟩
    else none

/-- Match the logger-method pattern
`\b(logger|log)\.(trace|debug|info|warn|error|log)\s*\(` at position `i`. -/
def matchLoggerAt (code : List Char) (i : Nat) : Option RMatch :=
  if !wordBoundaryAt code i then none
  else ["logger", "log"].findSome? fun recv =>
    if subAt code (chars recv) i then
      let p := i + (chars recv).length
      if code.get? p = some '.' then
        LOGGER_METHODS.findSome? fun meth =>
          if subAt code (chars meth) (p + 1) then
            (wsParen code (p + 1 + (chars meth).length)).map fun e => ⟨i, e, recv⟩
          else none
      else none
    else none

/-- Leftmost match at a position `≥ pos`. -/
def findMatchFrom (code : List Char) (f : Nat → Option RMatch) (pos : Nat) :
    Option RMatch :=
  (List.range' pos (code.length - pos)).findSome? f

/-- The `exec` loop of a global regex: repeated leftmost matches, resuming at
each match's end (the fuel bounds the number of iterations; every match
consumes at least one character, so `code.length + 1` is always enough). -/
def execGo (code : List Char) (f : Nat → Option RMatch) : Nat → Nat → List RMatch
  | _, 0 => []
  | pos, Nat.succ fuel =>
    match findMatchFrom code f pos with
    | none => []
    | some m => m :: execGo code f (max m.stop (pos + 1)) fuel

/-- All matches of the hook pattern. -/
def hookMatches (code : List Char) : List RMatch :=
  execGo code (matchCallAt code LOGRECT_HOOKS) 0 (code.length + 1)

/-- All matches of the HOC pattern. -/
def hocMatches (code : List Char) : List RMatch :=
  execGo code (matchCallAt code LOGRECT_HOCS) 0 (code.length + 1)

/-- All matches of the logger-method pattern. -/
def loggerMatches (code : List Char) : List RMatch :=
  execGo code (matchLoggerAt code) 0 (code.length + 1)

/-- A MagicString edit against original-buffer offsets. -/
inductive Edit where
  | appendLeft (pos : Nat) (text : List Char)
  | overwrite (start stop : Nat) (text : List Char)
deriving DecidableEq, Repr

/-- Texts appended to the left of original offset `i`, in call order. -/
def appendsAt (edits : List Edit) (i : Nat) : List Char :=
  edits.foldr
    (fun e acc =>
      match e with
      | Edit.appendLeft p t => if p = i then t ++ acc else acc
      | Edit.overwrite _ _ _ => acc)
    []

/-- The overwrite starting at original offset `i`, if any. -/
def overwriteAt (edits : List Edit) (i : Nat) : Option (Nat × List Char) :=
  edits.findSome? fun e =>
    match e with
    | Edit.overwrite s t txt => if s = i then some (t, txt) else none
    | Edit.appendLeft _ _ => none

/-- Render the edited buffer from original offset `i` onward.  The fuel only
bounds the iteration count: every step advances the offset by at least one, so
`code.length + 1` is always enough. -/
def applyGo (code : List Char) (edits : List Edit) : Nat → Nat → List Char
  | 0, _ => []
  | Nat.succ fuel, i =>
    if i < code.length then
      appendsAt edits i ++
        match overwriteAt edits i with
        | some (st, txt) => txt ++ applyGo code edits fuel (max st (i + 1))
        | none =>
          match code.get? i with
          | some ch => ch :: applyGo code edits fuel (i + 1)
          | none => []
    else appendsAt edits i

/-- Apply a MagicString edit list to the original buffer. -/
def applyEdits (code : List Char) (edits : List Edit) : List Char :=
  applyGo code edits (code.length + 1) 0

/-- The injected source object literal
`{ __source: { fileName: "…", lineNumber: … } }`. -/
def sourceObjText (path : List Char) (line : Nat) : List Char :=
  chars "\x7b __source: \x7b fileName: \"" ++ path ++
    chars "\", lineNumber: " ++ chars (toString line) ++ chars " \x7d \x7d"

/-- The spliced property text `, __source: { fileName: "…", lineNumber: … }`. -/
def spliceText (path : List Char) (line : Nat) : List Char :=
  chars ", __source: \x7b fileName: \"" ++ path ++
    chars "\", lineNumber: " ++ chars (toString line) ++ chars " \x7d"

/-- Top-level comma count: commas at paren/brace/bracket depth zero (the
depth may go negative on unbalanced text, as in JavaScript). -/
def topCommaGo : List Char → Int → Nat → Nat
  | [], _, n => n
  | c :: rest, d, n =>
    if c = '(' ∨ c = obrace ∨ c = '[' then topCommaGo rest (d + 1) n
    else if c = ')' ∨ c = cbrace ∨ c = ']' then topCommaGo rest (d - 1) n
    else if c = ',' ∧ d = 0 then topCommaGo rest d (n + 1)
    else topCommaGo rest d n

/-- Top-level commas of an argument text. -/
def topCommaCount (args : List Char) : Nat :=
  topCommaGo args 0 0

/-- One iteration of the hook-processing loop: the edits it records and the
value it leaves in `hasChanges` for this match. -/
def hookStep (code path : List Char) (m : RMatch) : List Edit × Bool :=
  if isInsideStringOrComment code m.idx then ([], false)
  else
    let op := m.stop - 1
    match findClosingParen code (op + 1) with
    | none => ([], false)
    | some cp =>
      let ln := getLineNumber code m.idx
      let args := trimJs (slice code (op + 1) cp)
      let srcObj := sourceObjText path ln
      if args = [] then
        ([Edit.overwrite op (cp + 1) (chars "(" ++ srcObj ++ chars ")")], true)
      else if args.contains obrace ∧ ¬ args.head? = some obrace then
        match lastIndexOfCharUpTo code cbrace cp with
        | some b =>
          if op < b then ([Edit.appendLeft b (spliceText path ln)], true)
          else ([Edit.appendLeft cp (chars ", " ++ srcObj)], true)
        | none => ([Edit.appendLeft cp (chars ", " ++ srcObj)], true)
      else if args.head? = some obrace then
        match lastIndexOfCharUpTo code cbrace cp with
        | some b =>
          if op < b then ([Edit.appendLeft b (spliceText path ln)], true)
          else ([], true)
        | none => ([], true)
      else ([Edit.appendLeft cp (chars ", " ++ srcObj)], true)

/-- One iteration of the HOC-processing loop. -/
def hocStep (code path : List Char) (m : RMatch) : List Edit × Bool :=
  if isInsideStringOrComment code m.idx then ([], false)
  else
    let op := m.stop - 1
    match findClosingParen code (op + 1) with
    | none => ([], false)
    | some cp =>
      let ln := getLineNumber code m.idx
      let srcObj := sourceObjText path ln
      let args := trimJs (slice code (op + 1) cp)
      if ¬ args = [] ∧ ¬ args.contains ',' then
        ([Edit.appendLeft cp (chars ", " ++ srcObj)], true)
      else ([], false)

/-- One iteration of the logger-method-processing loop. -/
def loggerStep (code path : List Char) (m : RMatch) : List Edit × Bool :=
  if isInsideStringOrComment code m.idx then ([], false)
  else
    let op := m.stop - 1
    match findClosingParen code (op + 1) with
    | none => ([], false)
    | some cp =>
      let ln := getLineNumber code m.idx
      let srcObj := sourceObjText path ln
      let args := trimJs (slice code (op + 1) cp)
      if ¬ args = [] then
        let n := topCommaCount args
        if n < 2 then
          ([Edit.appendLeft cp
              ((if n = 0 then chars ", undefined" else []) ++
                chars ", " ++ srcObj)], true)
        else ([], false)
      else ([], false)

/-- Combine the per-match results in loop order: concatenated edit lists and
the disjunction of the `hasChanges` contributions. -/
def collectSteps (l : List (List Edit × Bool)) : List Edit × Bool :=
  l.foldr (fun s acc => (s.1 ++ acc.1, s.2 || acc.2)) ([], false)

/-- The unplugin `transformCode`: `none` models the JavaScript `null` result
returned when no change was recorded. -/
def transformCode (code id : List Char) : Option (List Char) :=
  let path := cleanFilePathUP id
  let steps :=
    (hookMatches code).map (hookStep code path) ++
    (hocMatches code).map (hocStep code path) ++
    (loggerMatches code).map (loggerStep code path)
  let c := collectSteps steps
  if c.2 then some (applyEdits code c.1) else none

/-! ## Embedding of the runtime stack parser and source-location resolver -/

/-- A parsed stack frame (all fields nullable). -/
structure StackFrame where
  functionName : Option (List Char)
  fileName : Option (List Char)
  filePath : Option (List Char)
  lineNumber : Option Nat
  columnNumber : Option Nat
deriving DecidableEq, Repr

/-- Decimal value of a digit string (`parseInt(s, 10)` on a digits-only
capture). -/
def parseDigits (l : List Char) : Nat :=
  l.foldl (fun a c => a * 10 + (c.toNat - 48)) 0

/-- JavaScript `x || null` on an optional string capture. -/
def orNullStr (o : Option (List Char)) : Option (List Char) :=
  match o with
  | some [] => none
  | some s => some s
  | none => none

/-- Tail of a location: `(\d+):(\d+)` followed by the end of input, optionally
allowing one trailing close paren (for the chrome pattern's trailing part). -/
def locTail (v : List Char) (allowParen : Bool) : Option (List Char × List Char) :=
  let d1 := v.takeWhile isDigitC
  let v1 := v.dropWhile isDigitC
  if ¬ d1 = [] ∧ v1.head? = some ':' then
    let d2 := (v1.drop 1).takeWhile isDigitC
    let rest := (v1.drop 1).dropWhile isDigitC
    if ¬ d2 = [] ∧ (rest = [] ∨ (allowParen ∧ rest = [')'])) then some (d1, d2)
    else none
  else none

/-- Match `(.+?):(\d+):(\d+)` against all of `t` (lazy path: shortest first),
with the optional trailing paren policy of `locTail`. -/
def locMatch (t : List Char) (allowParen : Bool) :
    Option (List Char × List Char × List Char) :=
  (List.range t.length).findSome? fun i =>
    if 1 ≤ i ∧ t.get? i = some ':' ∧ (t.take i).all isDotC then
      (locTail (t.drop (i + 1)) allowParen).map fun d => (t.take i, d.1, d.2)
    else none

/-- Match `([^)]+)\)?$`: a nonempty run without close parens spanning the
input up to at most one trailing close paren. -/
def alt2Match (t : List Char) : Option (List Char) :=
  let u := t.takeWhile (fun c => c ≠ ')')
  let rest := t.dropWhile (fun c => c ≠ ')')
  if ¬ u = [] ∧ (rest = [] ∨ rest = [')']) then some u else none

/-- Captures of the chrome location alternation
`(?:(.+?):(\d+):(\d+)|([^)]+))\)?$`. -/
structure LocG where
  g2 : Option (List Char)
  g3 : Option (List Char)
  g4 : Option (List Char)
  g5 : Option (List Char)
deriving DecidableEq, Repr

/-- The chrome location alternation: the path/line/column branch is preferred,
the catch-all branch captures group 5. -/
def altB (t : List Char) : Option LocG :=
  match locMatch t true with
  | some (p, d1, d2) => some ⟨some p, some d1, some d2, none⟩
  | none => (alt2Match t).map fun u => ⟨none, none, none, some u⟩

/-- Captures of the chrome frame pattern. -/
structure ChromeG where
  g1 : Option (List Char)
  loc : LocG
deriving DecidableEq, Repr

/-- Match `(?:(.+?)\s+\()?(?:…)\)?$` after `at\s+`: the optional function-name
group is tried first (lazy name, then `\s+\(`), falling back to no group. -/
def chromeAfterAt (t : List Char) : Option ChromeG :=
  match
    (List.range' 1 t.length).findSome? (fun e =>
      if (t.take e).all isDotC then
        let rest1 := t.drop e
        let w := (rest1.takeWhile isJsWs).length
        if 1 ≤ w ∧ rest1.get? w = some '(' then
          (altB (rest1.drop (w + 1))).map fun g => ChromeG.mk (some (t.take e)) g
        else none
      else none) with
  | some g => some g
  | none => (altB t).map fun g => ChromeG.mk none g

/-- The chrome/V8 frame pattern
`^\s*at\s+(?:(.+?)\s+\()?(?:(.+?):(\d+):(\d+)|([^)]+))\)?$` (the `\s+` after
`at` is greedy, backtracking from the longest run). -/
def chromeExec (line : List Char) : Option ChromeG :=
  let l1 := line.dropWhile isJsWs
  if subAt l1 (chars "at") 0 then
    let r0 := l1.drop 2
    let mw := (r0.takeWhile isJsWs).length
    if 1 ≤ mw then
      (List.range mw).findSome? fun d => chromeAfterAt (r0.drop (mw - d))
    else none
  else none

/-- The firefox/safari frame pattern `^(.*)@(.+?):(\d+):(\d+)$` (greedy
function name: the last usable `@`). -/
def firefoxExec (line : List Char) :
    Option (List Char × List Char × List Char × List Char) :=
  (List.range line.length).reverse.findSome? fun i =>
    if line.get? i = some '@' ∧ (line.take i).all isDotC then
      (locMatch (line.drop (i + 1)) false).map fun d =>
        (line.take i, d.1, d.2.1, d.2.2)
    else none

/-- The simple frame pattern `^(.+?):(\d+):(\d+)$`. -/
def simpleExec (line : List Char) :
    Option (List Char × List Char × List Char) :=
  locMatch line false

/-- `extractFileName`: last path segment, with query/hash suffixes removed. -/
def extractFileName (filePath : List Char) : List Char :=
  let parts := splitOnPred (fun c => c = '/' || c = '\\') filePath
  let fileName := (parts.getLast?).getD []
  (fileName.takeWhile (fun c => c ≠ '?')).takeWhile (fun c => c ≠ '#')

/-- `parseStackFrame`: try the chrome, firefox and simple shapes in order. -/
def parseStackFrame (line : List Char) : Option StackFrame :=
  match chromeExec line with
  | some g =>
    some
      { functionName := orNullStr g.g1
        fileName := g.loc.g2.map extractFileName
        filePath := orNullStr g.loc.g2
        lineNumber := g.loc.g3.map parseDigits
        columnNumber := g.loc.g4.map parseDigits }
  | none =>
  match firefoxExec line with
  | some (fn, p, d1, d2) =>
    some
      { functionName := orNullStr (some fn)
        fileName := some (extractFileName p)
        filePath := some p
        lineNumber := some (parseDigits d1)
        columnNumber := some (parseDigits d2) }
  | none =>
  match simpleExec line with
  | some (p, d1, d2) =>
    some
      { functionName := none
        fileName := some (extractFileName p)
        filePath := some p
        lineNumber := some (parseDigits d1)
        columnNumber := some (parseDigits d2) }
  | none => none

/-- The internal path patterns of `internalFrames.ts`; the flag marks the two
case-insensitive ones. -/
def internalPats : List (Bool × String) :=
  [(true, "logrect"), (true, "loggerect"), (false, "logger.ts"),
   (false, "logger.js"), (false, "sourceTracker"), (false, "decorators"),
   (false, "hooks.ts"), (false, "hooks.js"), (false, "console."),
   (false, "native code"), (false, "<anonymous>"), (false, "node_modules"),
   (false, "node:"), (false, "next-server"), (false, "next/dist"),
   (false, ".next/"), (false, "react-dom"), (false, "react/jsx"),
   (false, "async_hooks"), (false, "loggerUtils"), (false, "consoleOutput"),
   (false, "logProcessor")]

/-- `isInternalFrame`: a frame without a file path is always internal,
otherwise any pattern hit makes it internal. -/
def isInternalFrame (fr : StackFrame) : Bool :=
  match fr.filePath with
  | none => true
  | some p =>
    internalPats.any fun pr =>
      containsSub (if pr.1 then toLowerL p else p) (chars pr.2)

/-- Lower-case hex digit (the class [a-f0-9]). -/
def hexLower (c : Char) : Bool :=
  c.isDigit || ('a' ≤ c && c ≤ 'f')

/-- Test of `/\.[a-f0-9]{6,}\./` (a hashed filename segment). -/
def hashedSegTest (p : List Char) : Bool :=
  (List.range p.length).any fun i =>
    p.get? i = some '.' &&
    (let r := ((p.drop (i + 1)).takeWhile hexLower).length
     decide (6 ≤ r) && p.get? (i + 1 + r) = some '.')

/-- Test of `/^[a-f0-9]{8,}$/` on a path segment. -/
def allHexMin8 (l : List Char) : Bool :=
  decide (8 ≤ l.length) && l.all hexLower

/-- Test of `/^[a-f0-9]+$/`. -/
def allHexLower (l : List Char) : Bool :=
  decide (1 ≤ l.length) && l.all hexLower

/-- Test of `/^[a-f0-9_]+$/i`. -/
def hexUnders (l : List Char) : Bool :=
  decide (1 ≤ l.length) &&
    l.all (fun c => c.isDigit || ('a' ≤ c.toLower && c.toLower ≤ 'f') || c = '_')

/-- `isBundledPath` of `pathUtils.ts`. -/
def isBundledPath (p : List Char) : Bool :=
  containsSub p (chars "/_next/") || containsSub p (chars "/chunks/") ||
  containsSub p (chars "webpack://") ||
  containsSub p (chars "webpack-internal://") ||
  containsSub p (chars "turbopack://") || containsSub p (chars "__turbopack__") ||
  subAt p (chars "[bundled") 0 ||
  hashedSegTest p || containsSub p (chars ".hot-update.") ||
  containsSub p (chars "node_modules__pnpm") ||
  containsSub p (chars "node_modules__npm") ||
  allHexMin8 (((splitOnChar '/' p).getLast?).getD [])

/-- First match of `/\[bundled:\s*([^\]]+)\]/`. -/
def bundledNameMatch (p : List Char) : Option (List Char) :=
  (List.range p.length).findSome? fun i =>
    if subAt p (chars "[bundled:") i then
      let after := p.drop (i + 9)
      let w := (after.takeWhile isJsWs).length
      let u := (after.drop w).takeWhile (fun c => c ≠ ']')
      if ¬ u = [] ∧ (after.drop w).get? u.length = some ']' then some u
      else none
    else none

/-- Global replacement of a nonempty pattern (`String.prototype.replace` with
a /g literal pattern). -/
def replaceAllSub (l pat rep : List Char) : List Char :=
  match l with
  | [] => []
  | a :: rest =>
    if 1 ≤ pat.length ∧ subAt (a :: rest) pat 0 then
      rep ++ replaceAllSub ((a :: rest).drop pat.length) pat rep
    else a :: replaceAllSub rest pat rep
termination_by l.length
decreasing_by
  all_goals simp [List.length_drop]
  omega

/-- Strip one of the extensions of `/\.(js|ts|tsx|jsx)$/`. -/
def stripExt (l : List Char) : List Char :=
  if subAt l (chars ".tsx") (l.length - 4) ∧ 4 ≤ l.length then l.take (l.length - 4)
  else if subAt l (chars ".jsx") (l.length - 4) ∧ 4 ≤ l.length then l.take (l.length - 4)
  else if subAt l (chars ".ts") (l.length - 3) ∧ 3 ≤ l.length then l.take (l.length - 3)
  else if subAt l (chars ".js") (l.length - 3) ∧ 3 ≤ l.length then l.take (l.length - 3)
  else l

/-- First match of `/node_modules__(?:pnpm|npm)_[^_]+__(.+)/`, returning the
final capture. -/
def turboPkgMatch (p : List Char) : Option (List Char) :=
  (List.range p.length).findSome? fun i =>
    let tryPre := fun (pre : List Char) =>
      if subAt p pre i then
        let st := i + pre.length
        let u := ((p.drop st).takeWhile (fun c => c ≠ '_')).length
        if 1 ≤ u ∧ subAt p (chars "__") (st + u) then
          let cap := (p.drop (st + u + 2)).takeWhile isDotC
          if ¬ cap = [] then some cap else none
        else none
      else none
    match tryPre (chars "node_modules__pnpm_") with
    | some c => some c
    | none => tryPre (chars "node_modules__npm_")

/-- First match of `/turbopack:\/\/[^/]+\/(.+?)(?:\?|$|:)/`, returning the
lazy capture. -/
def turboProtoMatch (p : List Char) : Option (List Char) :=
  (List.range p.length).findSome? fun i =>
    if subAt p (chars "turbopack://") i then
      let st := i + 12
      let u := ((p.drop st).takeWhile (fun c => c ≠ '/')).length
      if 1 ≤ u ∧ p.get? (st + u) = some '/' then
        let base := st + u + 1
        (List.range' 1 (p.length - base)).findSome? fun k =>
          if (slice p base (base + k)).all isDotC then
            match p.get? (base + k) with
            | none => some (slice p base (base + k))
            | some c =>
              if c = '?' ∨ c = ':' then some (slice p base (base + k)) else none
          else none
      else none
    else none

/-- Extension alternation `(js|ts|tsx|jsx)` as an unanchored lookup at `j`. -/
def extAt (p : List Char) (j : Nat) : Bool :=
  subAt p (chars "js") j || subAt p (chars "ts") j ||
  subAt p (chars "tsx") j || subAt p (chars "jsx") j

/-- The group of `/(?:^|\/)(marker[^?]+)\.(js|ts|tsx|jsx)/` when its capture
starts at `s`: greedy non-query run, backtracking to the last dot followed by
a known extension. -/
def routerInner (p marker : List Char) (s : Nat) : Option (List Char) :=
  if subAt p marker s then
    let xs := s + marker.length
    let runEnd := xs + ((p.drop xs).takeWhile (fun c => c ≠ '?')).length
    (List.range (runEnd + 1)).reverse.findSome? fun j =>
      if xs + 1 ≤ j ∧ p.get? j = some '.' ∧ extAt p (j + 1) then
        some (slice p s j)
      else none
  else none

/-- First match of `/(?:^|\/)(marker[^?]+)\.(js|ts|tsx|jsx)/`. -/
def routerMatch (p marker : List Char) : Option (List Char) :=
  match routerInner p marker 0 with
  | some r => some r
  | none =>
    (List.range p.length).findSome? fun t =>
      if p.get? t = some '/' then routerInner p marker (t + 1) else none

/-- First match of `/chunks\/([^/.]+)/`. -/
def chunksMatch (p : List Char) : Option (List Char) :=
  (List.range p.length).findSome? fun i =>
    if subAt p (chars "chunks/") i then
      let u := ((p.drop (i + 7)).takeWhile (fun c => c ≠ '/' ∧ c ≠ '.')).length
      if 1 ≤ u then some (slice p (i + 7) (i + 7 + u)) else none
    else none

/-- The bundled-path branch of the runtime `cleanFilePath`. -/
def cleanBundled (cleaned : List Char) : List Char :=
  match bundledNameMatch cleaned with
  | some b => b
  | none =>
    let step2 : Option (List Char) :=
      if containsSub cleaned (chars "node_modules__pnpm") ||
          containsSub cleaned (chars "node_modules__npm") then
        match turboPkgMatch cleaned with
        | some cap =>
          let e := stripExt (replaceAllSub cap (chars "__") (chars "/"))
          if ¬ e = [] ∧ ¬ allHexLower e then some e else none
        | none => none
      else none
    match step2 with
    | some r => r
    | none =>
      let step3 : Option (List Char) :=
        if containsSub cleaned (chars "turbopack://") then
          match turboProtoMatch cleaned with
          | some cap =>
            let e := stripExt cap
            if ¬ e = [] then some e else none
          | none => none
        else none
      match step3 with
      | some r => r
      | none =>
        match routerMatch cleaned (chars "app/") with
        | some r => r
        | none =>
        match routerMatch cleaned (chars "pages/") with
        | some r => r
        | none =>
        match routerMatch cleaned (chars "src/") with
        | some r => r
        | none =>
        match routerMatch cleaned (chars "components/") with
        | some r => r
        | none =>
        match chunksMatch cleaned with
        | some c =>
          if ¬ hexUnders c then chars "[bundled: " ++ c ++ chars "]"
          else chars "[bundled]"
        | none => chars "[bundled]"

/-- The non-bundled branch of the runtime `cleanFilePath`. -/
def cleanNonBundled (cleaned : List Char) : List Char :=
  let c1 :=
    if subAt cleaned (chars "webpack://") 0 then
      cleaned.drop (10 + ((cleaned.drop 10).takeWhile (fun c => c ≠ '/')).length)
    else cleaned
  let c2 :=
    if subAt c1 (chars "webpack-internal:///") 0 then c1.drop 20 else c1
  let c3 := if subAt c2 (chars "file://") 0 then c2.drop 7 else c2
  if containsSub c3 (chars "node_modules") || subAt c3 (chars "node:") 0 then []
  else
    let srcIdx := indexOfSub c3 (chars "/src/")
    let c4 :=
      match srcIdx with
      | some i => c3.drop (i + 1)
      | none => c3
    let appIdx := indexOfSub c4 (chars "/app/")
    let c5 :=
      match appIdx, srcIdx with
      | some i, none => c4.drop (i + 1)
      | _, _ => c4
    let compIdx := indexOfSub c5 (chars "/components/")
    let c6 :=
      match compIdx, srcIdx, appIdx with
      | some i, none, none => c5.drop (i + 1)
      | _, _, _ => c5
    c6.takeWhile (fun c => c ≠ '?')

/-- The runtime `cleanFilePath` of `pathUtils.ts`. -/
def cleanFilePathRT (filePath : List Char) : List Char :=
  if filePath = [] then []
  else
    let cleaned := (filePath.takeWhile (fun c => c ≠ '?')).takeWhile (fun c => c ≠ '#')
    if isBundledPath cleaned then cleanBundled cleaned
    else cleanNonBundled cleaned

/-- Function-name patterns treated as internal when deriving a class name. -/
def fnInternalPats : List String :=
  ["react_stack", "react_internal", "Object.", "AsyncResource",
   "runInAsyncScope", "processTicksAndRejections", "nextTick", "node:",
   "anonymous", "<anonymous>"]

/-- Class-name extraction from a function name
(`/^([A-Z][a-zA-Z0-9]*)\./`, else the whole-name test `/^[A-Z][a-zA-Z0-9]*$/`). -/
def classNameOf (fn : List Char) : Option (List Char) :=
  if fnInternalPats.any (fun pat => containsSub fn (chars pat)) then none
  else
    match fn with
    | [] => none
    | c :: rest =>
      if 'A' ≤ c ∧ c ≤ 'Z' then
        let run := (rest.takeWhile (fun d => d.isAlphanum)).length
        if rest.get? run = some '.' then some (c :: rest.take run)
        else if rest.length = run then some (c :: rest)
        else none
      else none

/-- Environment of the configuration store. -/
inductive Env where
  | development
  | production
  | test
deriving DecidableEq, Repr

/-- The `includeSourcePath` option: `'auto'` or an explicit boolean. -/
inductive IncOpt where
  | auto
  | flag (b : Bool)
deriving DecidableEq, Repr

/-- The slice of the configuration store that source-location resolution
reads. -/
structure Config where
  includeSourcePath : IncOpt
  environment : Env
deriving DecidableEq, Repr

/-- `shouldIncludeSourcePath` of `config.ts`. -/
def shouldIncludeSourcePath (cfg : Config) : Bool :=
  match cfg.includeSourcePath with
  | IncOpt.auto => cfg.environment = Env.development
  | IncOpt.flag b => b

/-- The resolved source location record. -/
structure SourceLocation where
  filePath : Option (List Char)
  fileName : Option (List Char)
  lineNumber : Option Nat
  columnNumber : Option Nat
  functionName : Option (List Char)
  className : Option (List Char)
  fullPath : Option (List Char)
deriving DecidableEq, Repr

/-- The all-null record. -/
def nullLocation : SourceLocation :=
  ⟨none, none, none, none, none, none, none⟩

/-- Frame-selection loop of `getSourceLocation`: first non-internal frame
after skipping `skip` non-internal frames; the index stays 0 when the loop
never breaks. -/
def selectGo : List StackFrame → Nat → Nat → Nat → Nat
  | [], _, _, _ => 0
  | f :: rest, i, skipped, skip =>
    if ¬ isInternalFrame f then
      if skip ≤ skipped then i else selectGo rest (i + 1) (skipped + 1) skip
    else selectGo rest (i + 1) skipped skip

/-- Selected frame index for a frame list and a skip count. -/
def selectIdx (frames : List StackFrame) (skip : Nat) : Nat :=
  selectGo frames 0 0 skip

/-- Field derivation from the selected frame. -/
def buildResult (fr : StackFrame) : SourceLocation :=
  { functionName := fr.functionName
    lineNumber := fr.lineNumber
    columnNumber := fr.columnNumber
    fullPath := fr.filePath
    filePath := fr.filePath.map cleanFilePathRT
    fileName := fr.filePath.map extractFileName
    className := fr.functionName.bind classNameOf }

/-- `getSourceLocation` of `sourceLocation.ts`, as a function of the captured
stack text (`none` models an absent `error.stack`). -/
def getSourceLocation (cfg : Config) (stack : Option (List Char)) (skip : Nat) :
    SourceLocation :=
  if ¬ shouldIncludeSourcePath cfg then nullLocation
  else
    match stack with
    | none => nullLocation
    | some st =>
      let lines := splitOnChar '\n' st
      let frames := lines.filterMap parseStackFrame
      match frames.get? (selectIdx frames skip) with
      | none => nullLocation
      | some fr => buildResult fr

/-! ## Helper lemmas -/

/-- The newline loop accumulates the newline count. -/
theorem glCount_eq (l : List Char) : ∀ line, glCount l line = line + l.count '\n' := by
  induction l with
  | nil => intro line; simp [glCount]
  | cons c rest ih =>
    intro line
    by_cases hc : c = '\n'
    · simp [glCount, hc, ih, List.count_cons]
      omega
    · simp [glCount, hc, ih, List.count_cons]

/-- `getLineNumber` is one plus the number of newlines strictly before the
offset. -/
theorem getLineNumber_eq (code : List Char) (pos : Nat) :
    getLineNumber code pos = 1 + (code.take pos).count '\n' := by
  simp [getLineNumber, glCount_eq]

/-- A loop iteration that records nothing and leaves the flag alone does not
change the collected result. -/
theorem collectSteps_skip (rest : List (List Edit × Bool)) :
    collectSteps (([], false) :: rest) = collectSteps rest := by
  simp [collectSteps]

/-- At depth zero the scan loop stops immediately, reporting the previous
index. -/
theorem fcpL_depth_zero (cs : List Char) (i : Nat) (prv strq : Option Char)
    (inT : Bool) (tD : Nat) : fcpL cs i 0 prv strq inT tD = some (i - 1) := by
  cases cs <;> simp [fcpL]

/-- One quote-free step of the scan loop of `findClosingParen`. -/
theorem fcpL_step (c : Char) (rest : List Char) (i depth : Nat) (prv : Option Char)
    (hqc : isQuoteChar c = false) (hd : ¬ depth = 0) :
    fcpL (c :: rest) i depth prv none false 0 =
      if c = '(' then fcpL rest (i + 1) (depth + 1) (some c) none false 0
      else if c = ')' then fcpL rest (i + 1) (depth - 1) (some c) none false 0
      else fcpL rest (i + 1) depth (some c) none false 0 := by
  simp [fcpL, hqc, hd]

/-- On quote-free input the scan loop of `findClosingParen` agrees with the
reference depth scanner. -/
theorem fcpL_eq_plain (cs : List Char) : ∀ (i depth : Nat) (prv : Option Char),
    0 < depth → (∀ c ∈ cs, isQuoteChar c = false) →
    fcpL cs i depth prv none false 0 = (plainCloseL cs depth).map (· + i) := by
  induction cs with
  | nil =>
    intro i depth prv hd _
    simp [fcpL, plainCloseL, Nat.pos_iff_ne_zero.mp hd]
  | cons c rest ih =>
    intro i depth prv hd hq
    have hqc : isQuoteChar c = false := hq c (List.mem_cons_self c rest)
    have hqr : ∀ x ∈ rest, isQuoteChar x = false := fun x hx =>
      hq x (List.mem_cons_of_mem c hx)
    have hdz : ¬ depth = 0 := by omega
    rw [fcpL_step c rest i depth prv hqc hdz]
    by_cases hc : c = '('
    · subst hc
      rw [if_pos rfl, ih (i + 1) (depth + 1) (some '(') (Nat.succ_pos depth) hqr,
        show plainCloseL ('(' :: rest) depth =
          (plainCloseL rest (depth + 1)).map (· + 1) from rfl]
      cases plainCloseL rest (depth + 1) with
      | none => simp
      | some r => simp; omega
    · by_cases hp : c = ')'
      · subst hp
        rw [if_neg hc, if_pos rfl]
        by_cases h1 : depth = 1
        · subst h1
          rw [show ((1 : Nat) - 1) = 0 from rfl, fcpL_depth_zero,
            show plainCloseL (')' :: rest) 1 = some 0 from rfl]
          simp
        · rw [ih (i + 1) (depth - 1) (some ')') (by omega) hqr,
            show plainCloseL (')' :: rest) depth =
              if depth = 1 then some 0
              else (plainCloseL rest (depth - 1)).map (· + 1) from rfl,
            if_neg h1]
          cases plainCloseL rest (depth - 1) with
          | none => simp
          | some r => simp; omega
      · rw [if_neg hc, if_neg hp, ih (i + 1) depth (some c) hd hqr]
        have hpl : plainCloseL (c :: rest) depth =
            (plainCloseL rest depth).map (· + 1) := by
          simp [plainCloseL, hc, hp]
        rw [hpl]
        cases plainCloseL rest depth with
        | none => simp
        | some r => simp; omega

/-- Characterization of a successful reference scan: the reported index holds
the close paren that first returns the depth accumulator to zero. -/
theorem plainCloseL_some (cs : List Char) : ∀ (d r : Nat), 0 < d →
    plainCloseL cs d = some r →
    r < cs.length ∧ cs.get? r = some ')' ∧
    (cs.take (r + 1)).count ')' = (cs.take (r + 1)).count '(' + d ∧
    ∀ k, k ≤ r → (cs.take k).count ')' < (cs.take k).count '(' + d := by
  induction cs with
  | nil => intro d r _ h; simp [plainCloseL] at h
  | cons c rest ih =>
    intro d r hd h
    by_cases hc : c = '('
    · subst hc
      rw [show plainCloseL ('(' :: rest) d =
        (plainCloseL rest (d + 1)).map (· + 1) from rfl] at h
      cases hres : plainCloseL rest (d + 1) with
      | none => rw [hres] at h; simp at h
      | some r' =>
        rw [hres] at h
        simp at h
        subst h
        obtain ⟨ha, hb, hcnt, hall⟩ := ih (d + 1) r' (Nat.succ_pos d) hres
        refine ⟨by simp; omega, hb, ?_, ?_⟩
        · rw [show (('(' : Char) :: rest).take (r' + 1 + 1) =
            '(' :: rest.take (r' + 1) from rfl]
          simp [List.count_cons, hcnt]
          omega
        · intro k hk
          cases k with
          | zero => simp; omega
          | succ k' =>
            rw [show (('(' : Char) :: rest).take (k' + 1) =
              '(' :: rest.take k' from rfl]
            have := hall k' (by omega)
            simp [List.count_cons]
            omega
    · by_cases hp : c = ')'
      · subst hp
        by_cases h1 : d = 1
        · subst h1
          rw [show plainCloseL (')' :: rest) 1 = some 0 from rfl] at h
          simp at h
          subst h
          refine ⟨by simp, rfl, ?_, ?_⟩
          · rw [show ((')' : Char) :: rest).take 1 = [')'] from rfl]
            simp [List.count_cons]
          · intro k hk
            have hk0 : k = 0 := by omega
            subst hk0
            simp
        · rw [show plainCloseL (')' :: rest) d =
            if d = 1 then some 0
            else (plainCloseL rest (d - 1)).map (· + 1) from rfl, if_neg h1] at h
          cases hres : plainCloseL rest (d - 1) with
          | none => rw [hres] at h; simp at h
          | some r' =>
            rw [hres] at h
            simp at h
            subst h
            obtain ⟨ha, hb, hcnt, hall⟩ := ih (d - 1) r' (by omega) hres
            refine ⟨by simp; omega, hb, ?_, ?_⟩
            · rw [show ((')' : Char) :: rest).take (r' + 1 + 1) =
                ')' :: rest.take (r' + 1) from rfl]
              simp [List.count_cons, hcnt]
              omega
            · intro k hk
              cases k with
              | zero => simp; omega
              | succ k' =>
                rw [show ((')' : Char) :: rest).take (k' + 1) =
                  ')' :: rest.take k' from rfl]
                have := hall k' (by omega)
                simp [List.count_cons]
                omega
      · have hpl : plainCloseL (c :: rest) d = (plainCloseL rest d).map (· + 1) := by
          simp [plainCloseL, hc, hp]
        rw [hpl] at h
        cases hres : plainCloseL rest d with
        | none => rw [hres] at h; simp at h
        | some r' =>
          rw [hres] at h
          simp at h
          subst h
          obtain ⟨ha, hb, hcnt, hall⟩ := ih d r' hd hres
          refine ⟨by simp; omega, hb, ?_, ?_⟩
          · rw [show (c :: rest).take (r' + 1 + 1) = c :: rest.take (r' + 1) from rfl]
            simp [List.count_cons, hc, hp, hcnt]
          · intro k hk
            cases k with
            | zero => simp; omega
            | succ k' =>
              rw [show (c :: rest).take (k' + 1) = c :: rest.take k' from rfl]
              have := hall k' (by omega)
              simp [List.count_cons, hc, hp]
              omega

/-- Characterization of a failed reference scan: the depth accumulator never
returns to zero before the buffer ends. -/
theorem plainCloseL_none (cs : List Char) : ∀ (d : Nat), 0 < d →
    plainCloseL cs d = none →
    ∀ k, k ≤ cs.length → (cs.take k).count ')' < (cs.take k).count '(' + d := by
  induction cs with
  | nil =>
    intro d hd _ k hk
    simp at hk
    subst hk
    simp
    omega
  | cons c rest ih =>
    intro d hd h k hk
    cases k with
    | zero => simp; omega
    | succ k' =>
      have hk' : k' ≤ rest.length := by simp at hk; omega
      by_cases hc : c = '('
      · subst hc
        rw [show plainCloseL ('(' :: rest) d =
          (plainCloseL rest (d + 1)).map (· + 1) from rfl] at h
        have hres : plainCloseL rest (d + 1) = none := by
          cases hres : plainCloseL rest (d + 1) with
          | none => rfl
          | some r => rw [hres] at h; simp at h
        have := ih (d + 1) (Nat.succ_pos d) hres k' hk'
        rw [show (('(' : Char) :: rest).take (k' + 1) = '(' :: rest.take k' from rfl]
        simp [List.count_cons]
        omega
      · by_cases hp : c = ')'
        · subst hp
          by_cases h1 : d = 1
          · subst h1
            rw [show plainCloseL (')' :: rest) 1 = some 0 from rfl] at h
            simp at h
          · rw [show plainCloseL (')' :: rest) d =
              if d = 1 then some 0
              else (plainCloseL rest (d - 1)).map (· + 1) from rfl, if_neg h1] at h
            have hres : plainCloseL rest (d - 1) = none := by
              cases hres : plainCloseL rest (d - 1) with
              | none => rfl
              | some r => rw [hres] at h; simp at h
            have := ih (d - 1) (by omega) hres k' hk'
            rw [show ((')' : Char) :: rest).take (k' + 1) = ')' :: rest.take k' from rfl]
            simp [List.count_cons]
            omega
        · have hpl : plainCloseL (c :: rest) d = (plainCloseL rest d).map (· + 1) := by
            simp [plainCloseL, hc, hp]
          rw [hpl] at h
          have hres : plainCloseL rest d = none := by
            cases hres : plainCloseL rest d with
            | none => rfl
            | some r => rw [hres] at h; simp at h
          have := ih d hd hres k' hk'
          rw [show (c :: rest).take (k' + 1) = c :: rest.take k' from rfl]
          simp [List.count_cons, hc, hp]
          omega

/-! ## Claim theorems -/

/-- C1: a monitored-identifier occurrence whose start offset the lexical
classifier reports as inside a string or comment never produces an injection:
each of the three processing loops discards the match, contributing no edit
and leaving the changed flag untouched, so the rewriter makes no edit at that
occurrence. -/
theorem claim1_string_comment_discard (code path : List Char) (m : RMatch)
    (h : isInsideStringOrComment code m.idx = true) :
    hookStep code path m = ([], false) ∧
    hocStep code path m = ([], false) ∧
    loggerStep code path m = ([], false) ∧
    (∀ rest, collectSteps (hookStep code path m :: rest) = collectSteps rest) ∧
    (∀ rest, collectSteps (hocStep code path m :: rest) = collectSteps rest) ∧
    (∀ rest, collectSteps (loggerStep code path m :: rest) = collectSteps rest) := by
  have h1 : hookStep code path m = ([], false) := by simp [hookStep, h]
  have h2 : hocStep code path m = ([], false) := by simp [hocStep, h]
  have h3 : loggerStep code path m = ([], false) := by simp [loggerStep, h]
  refine ⟨h1, h2, h3, ?_, ?_, ?_⟩ <;> intro rest <;>
    simp [h1, h2, h3, collectSteps_skip]

/-- C1 witness: the hook occurrence inside the string literal of
`x = "useLogger()"` (a genuine match of the hook pattern) is discarded. -/
theorem claim1_witness :
    isInsideStringOrComment (chars "x = \"useLogger()\"") 5 = true ∧
    (⟨5, 15, "useLogger"⟩ : RMatch) ∈ hookMatches (chars "x = \"useLogger()\"") ∧
    hookStep (chars "x = \"useLogger()\"") (chars "p.ts") ⟨5, 15, "useLogger"⟩ =
      ([], false) := by
  refine ⟨by decide, by decide, ?_⟩
  exact (claim1_string_comment_discard (chars "x = \"useLogger()\"") (chars "p.ts")
    ⟨5, 15, "useLogger"⟩ (by decide)).1

/-- C2: on quote-free input (ordinary non-string code, nested parentheses
allowed), a successful `findClosingParen` reports exactly the true matching
close paren — the first position at which the close-paren count exceeds the
open-paren count by one — and a `none` result (the JavaScript `-1`) means the
buffer ends before the depth returns to zero.  When the resolver fails on a
call, each processing loop aborts that call only — no edit, flag untouched —
and the collected result of the remaining matches is unchanged. -/
theorem claim2_close_paren :
    (∀ (code : List Char) (start : Nat),
      (∀ c ∈ code.drop start, isQuoteChar c = false) →
      (∀ j, findClosingParen code start = some j →
        start ≤ j ∧ (code.drop start).get? (j - start) = some ')' ∧
        ((code.drop start).take (j - start + 1)).count ')' =
          ((code.drop start).take (j - start + 1)).count '(' + 1 ∧
        (∀ k, k ≤ j - start →
          ((code.drop start).take k).count ')' <
            ((code.drop start).take k).count '(' + 1)) ∧
      (findClosingParen code start = none →
        ∀ k, k ≤ (code.drop start).length →
          ((code.drop start).take k).count ')' <
            ((code.drop start).take k).count '(' + 1)) ∧
    (∀ (code path : List Char) (m : RMatch) (rest : List (List Edit × Bool)),
      findClosingParen code (m.stop - 1 + 1) = none →
      hookStep code path m = ([], false) ∧
      hocStep code path m = ([], false) ∧
      loggerStep code path m = ([], false) ∧
      collectSteps (hookStep code path m :: rest) = collectSteps rest) := by
  constructor
  · intro code start hq
    have heq : findClosingParen code start =
        (plainCloseL (code.drop start) 1).map (· + start) :=
      fcpL_eq_plain (code.drop start) start 1 _ Nat.one_pos hq
    constructor
    · intro j hj
      rw [heq] at hj
      cases hres : plainCloseL (code.drop start) 1 with
      | none => rw [hres] at hj; simp at hj
      | some r =>
        rw [hres] at hj
        simp at hj
        subst hj
        obtain ⟨ha, hb, hcnt, hall⟩ := plainCloseL_some _ 1 r Nat.one_pos hres
        have hrs : r + start - start = r := by omega
        rw [hrs]
        exact ⟨by omega, hb, hcnt, hall⟩
    · intro hnone k hk
      rw [heq] at hnone
      cases hres : plainCloseL (code.drop start) 1 with
      | some r => rw [hres] at hnone; simp at hnone
      | none => exact plainCloseL_none _ 1 Nat.one_pos hres k hk
  · intro code path m rest hfcp
    have h1 : hookStep code path m = ([], false) := by
      by_cases hin : isInsideStringOrComment code m.idx
      · simp [hookStep, hin]
      · simp [hookStep, hin, hfcp]
    have h2 : hocStep code path m = ([], false) := by
      by_cases hin : isInsideStringOrComment code m.idx
      · simp [hocStep, hin]
      · simp [hocStep, hin, hfcp]
    have h3 : loggerStep code path m = ([], false) := by
      by_cases hin : isInsideStringOrComment code m.idx
      · simp [loggerStep, hin]
      · simp [loggerStep, hin, hfcp]
    exact ⟨h1, h2, h3, by rw [h1, collectSteps_skip]⟩

/-- C2 witness: the nested call text `f(g(x), h(y)) rest` scanned from after
the outer open paren resolves to index 12 with the matching-paren
characterization, and the unbalanced call `useLogger(g(, x` is aborted alone. -/
theorem claim2_witness :
    (∀ c ∈ (chars "f(g(x), h(y)) rest").drop 2, isQuoteChar c = false) ∧
    findClosingParen (chars "f(g(x), h(y)) rest") 2 = some 12 ∧
    2 ≤ 12 ∧
    ((chars "f(g(x), h(y)) rest").drop 2).get? (12 - 2) = some ')' ∧
    (((chars "f(g(x), h(y)) rest").drop 2).take (12 - 2 + 1)).count ')' =
      (((chars "f(g(x), h(y)) rest").drop 2).take (12 - 2 + 1)).count '(' + 1 ∧
    (∀ k, k ≤ 12 - 2 →
      (((chars "f(g(x), h(y)) rest").drop 2).take k).count ')' <
        (((chars "f(g(x), h(y)) rest").drop 2).take k).count '(' + 1) ∧
    findClosingParen (chars "useLogger(g(, x") (10 - 1 + 1) = none ∧
    hookStep (chars "useLogger(g(, x") (chars "p.ts") ⟨0, 10, "useLogger"⟩ =
      ([], false) ∧
    collectSteps
      (hookStep (chars "useLogger(g(, x") (chars "p.ts") ⟨0, 10, "useLogger"⟩ ::
        [([Edit.appendLeft 3 (chars "z")], true)]) =
      collectSteps [([Edit.appendLeft 3 (chars "z")], true)] := by
  have h1 := (claim2_close_paren.1 (chars "f(g(x), h(y)) rest") 2 (by decide)).1
    12 (by decide)
  have h2 := claim2_close_paren.2 (chars "useLogger(g(, x") (chars "p.ts")
    ⟨0, 10, "useLogger"⟩ [([Edit.appendLeft 3 (chars "z")], true)] (by decide)
  exact ⟨by decide, by decide, h1.1, h1.2.1, h1.2.2.1, h1.2.2.2, by decide,
    h2.1, h2.2.2.2⟩

/-- C3: for every discovered logger-method call with non-empty trimmed
argument text, the rewriter counts commas at paren/brace/bracket depth zero;
when the count is below two it appends padding (a literal `undefined`
placeholder exactly when there was no comma) plus the source object as final
argument, producing a three-argument shape, and with two or more top-level
commas it records nothing.  In particular `logger.info("hi")` becomes
`logger.info("hi", undefined, { __source: … })`. -/
theorem claim3_logger_padding :
    (∀ (code path : List Char) (m : RMatch) (cp : Nat),
      m ∈ loggerMatches code →
      isInsideStringOrComment code m.idx = false →
      findClosingParen code (m.stop - 1 + 1) = some cp →
      ¬ trimJs (slice code (m.stop - 1 + 1) cp) = [] →
      (topCommaCount (trimJs (slice code (m.stop - 1 + 1) cp)) < 2 →
        loggerStep code path m =
          ([Edit.appendLeft cp
            ((if topCommaCount (trimJs (slice code (m.stop - 1 + 1) cp)) = 0
              then chars ", undefined" else []) ++
              chars ", " ++ sourceObjText path (getLineNumber code m.idx))],
            true)) ∧
      (2 ≤ topCommaCount (trimJs (slice code (m.stop - 1 + 1) cp)) →
        loggerStep code path m = ([], false))) ∧
    transformCode (chars "logger.info(\"hi\")") (chars "app/util.ts") =
      some (chars "logger.info(\"hi\", undefined, \x7b __source: \x7b fileName: \"app/util.ts\", lineNumber: 1 \x7d \x7d)") := by
  constructor
  · intro code path m cp _hmem hin hfcp hne
    constructor
    · intro hn
      simp [loggerStep, hin, hfcp, hne, hn]
    · intro hn
      have hn2 : ¬ topCommaCount (trimJs (slice code (m.stop - 1 + 1) cp)) < 2 := by
        omega
      simp [loggerStep, hin, hfcp, hne, hn2]
  · rfl

/-- C3 witness: the logger call `logger.info("hi")` (zero top-level commas) is
padded with one `undefined` and the source object. -/
theorem claim3_witness :
    (⟨0, 12, "logger"⟩ : RMatch) ∈ loggerMatches (chars "logger.info(\"hi\")") ∧
    isInsideStringOrComment (chars "logger.info(\"hi\")") 0 = false ∧
    findClosingParen (chars "logger.info(\"hi\")") 12 = some 16 ∧
    topCommaCount (trimJs (slice (chars "logger.info(\"hi\")") 12 16)) = 0 ∧
    loggerStep (chars "logger.info(\"hi\")") (chars "app/util.ts")
      ⟨0, 12, "logger"⟩ =
      ([Edit.appendLeft 16
        ((if topCommaCount (trimJs (slice (chars "logger.info(\"hi\")") 12 16)) = 0
          then chars ", undefined" else []) ++
          chars ", " ++
          sourceObjText (chars "app/util.ts")
            (getLineNumber (chars "logger.info(\"hi\")") 0))], true) := by
  refine ⟨by decide, by decide, by decide, by decide, ?_⟩
  exact ((claim3_logger_padding.1 (chars "logger.info(\"hi\")")
    (chars "app/util.ts") ⟨0, 12, "logger"⟩ 16 (by decide) (by decide)
    (by decide) (by decide)).1 (by decide))

/-- C4 counterexample: `useLogger()` on line 5 of `app/page.tsx` is rewritten
with `fileName: "app/page.tsx"` — the path-cleaning of this rewriter keeps
the extension — not with the claimed `fileName: "app/page"`. -/
theorem claim4_counterexample :
    transformCode (chars "\n\n\n\nuseLogger()") (chars "app/page.tsx") =
      some (chars "\n\n\n\nuseLogger(\x7b __source: \x7b fileName: \"app/page.tsx\", lineNumber: 5 \x7d \x7d)") ∧
    ¬ transformCode (chars "\n\n\n\nuseLogger()") (chars "app/page.tsx") =
      some (chars "\n\n\n\nuseLogger(\x7b __source: \x7b fileName: \"app/page\", lineNumber: 5 \x7d \x7d)") := by
  exact ⟨by rfl, by decide⟩

/-- C4 amended: for every discovered hook call whose trimmed argument text is
empty, the rewriter replaces the whole argument list with
`({ __source: { fileName: <cleaned path>, lineNumber: n } })` where n is one
plus the number of newlines strictly before the match start; the cleaned path
keeps the file extension, so `useLogger()` at line 5 of `app/page.tsx` yields
`useLogger({ __source: { fileName: "app/page.tsx", lineNumber: 5 } })`. -/
theorem claim4_amended :
    (∀ (code path : List Char) (m : RMatch) (cp : Nat),
      isInsideStringOrComment code m.idx = false →
      findClosingParen code (m.stop - 1 + 1) = some cp →
      trimJs (slice code (m.stop - 1 + 1) cp) = [] →
      hookStep code path m =
        ([Edit.overwrite (m.stop - 1) (cp + 1)
          (chars "(" ++ sourceObjText path (getLineNumber code m.idx) ++
            chars ")")], true) ∧
      getLineNumber code m.idx = 1 + (code.take m.idx).count '\n') ∧
    cleanFilePathUP (chars "app/page.tsx") = chars "app/page.tsx" ∧
    transformCode (chars "\n\n\n\nuseLogger()") (chars "app/page.tsx") =
      some (chars "\n\n\n\nuseLogger(\x7b __source: \x7b fileName: \"app/page.tsx\", lineNumber: 5 \x7d \x7d)") := by
  refine ⟨?_, by rfl, by rfl⟩
  intro code path m cp hin hfcp hargs
  exact ⟨by simp [hookStep, hin, hfcp, hargs], getLineNumber_eq code m.idx⟩

/-- C4 amended witness: the empty-argument hook call of the counterexample
buffer, at match start 4 (line 5). -/
theorem claim4_witness :
    isInsideStringOrComment (chars "\n\n\n\nuseLogger()") 4 = false ∧
    findClosingParen (chars "\n\n\n\nuseLogger()") 14 = some 14 ∧
    trimJs (slice (chars "\n\n\n\nuseLogger()") 14 14) = [] ∧
    hookStep (chars "\n\n\n\nuseLogger()") (chars "app/page.tsx")
      ⟨4, 14, "useLogger"⟩ =
      ([Edit.overwrite 13 15
        (chars "(" ++
          sourceObjText (chars "app/page.tsx")
            (getLineNumber (chars "\n\n\n\nuseLogger()") 4) ++
          chars ")")], true) ∧
    getLineNumber (chars "\n\n\n\nuseLogger()") 4 =
      1 + ((chars "\n\n\n\nuseLogger()").take 4).count '\n' := by
  have h := claim4_amended.1 (chars "\n\n\n\nuseLogger()") (chars "app/page.tsx")
    ⟨4, 14, "useLogger"⟩ 14 (by decide) (by decide) (by decide)
  exact ⟨by decide, by decide, by decide, h.1, h.2⟩

/-- C5 counterexample: in `useLogger({a: 1}, "x}")` the splice position
chosen by the rewriter is offset 20, the `}` inside the string literal
`"x}"` — the classifier itself reports offset 20 as inside a string — so the
insertion point can sit inside a string literal. -/
theorem claim5_counterexample :
    (⟨0, 10, "useLogger"⟩ : RMatch) ∈
      hookMatches (chars "useLogger(\x7ba: 1\x7d, \"x\x7d\")") ∧
    hookStep (chars "useLogger(\x7ba: 1\x7d, \"x\x7d\")") (chars "p.ts")
      ⟨0, 10, "useLogger"⟩ =
      ([Edit.appendLeft 20 (spliceText (chars "p.ts") 1)], true) ∧
    isInsideStringOrComment (chars "useLogger(\x7ba: 1\x7d, \"x\x7d\")") 20 = true := by
  refine ⟨by decide, by decide, by decide⟩

/-- C5 amended: for every discovered hook call whose trimmed argument text
contains `{`, the rewriter splices the `__source` property immediately before
the last `}` at or before the close paren in the raw buffer (a backward
`lastIndexOf` that ignores lexical context), provided that brace lies after
the open paren; the splice position may fall inside a string literal or a
nested, non-top-level brace. -/
theorem claim5_amended :
    ∀ (code path : List Char) (m : RMatch) (cp b : Nat),
      isInsideStringOrComment code m.idx = false →
      findClosingParen code (m.stop - 1 + 1) = some cp →
      ¬ trimJs (slice code (m.stop - 1 + 1) cp) = [] →
      (trimJs (slice code (m.stop - 1 + 1) cp)).contains obrace = true →
      lastIndexOfCharUpTo code cbrace cp = some b →
      m.stop - 1 < b →
      hookStep code path m =
        ([Edit.appendLeft b (spliceText path (getLineNumber code m.idx))], true) := by
  intro code path m cp b hin hfcp hne hbr hb hlt
  have hbr2 : obrace ∈ trimJs (slice code (m.stop - 1 + 1) cp) := by simpa using hbr
  by_cases hh : (trimJs (slice code (m.stop - 1 + 1) cp)).head? = some obrace
  · simp [hookStep, hin, hfcp, hne, hbr2, hh, hb, hlt]
  · simp [hookStep, hin, hfcp, hne, hbr2, hh, hb, hlt]

/-- C5 amended witness: the splice of the counterexample call lands at the
last raw `}` (offset 20), which lies inside the string literal. -/
theorem claim5_witness :
    ¬ trimJs (slice (chars "useLogger(\x7ba: 1\x7d, \"x\x7d\")") 10 22) = [] ∧
    (trimJs (slice (chars "useLogger(\x7ba: 1\x7d, \"x\x7d\")") 10 22)).contains
      obrace = true ∧
    lastIndexOfCharUpTo (chars "useLogger(\x7ba: 1\x7d, \"x\x7d\")") cbrace 22 =
      some 20 ∧
    hookStep (chars "useLogger(\x7ba: 1\x7d, \"x\x7d\")") (chars "p.ts")
      ⟨0, 10, "useLogger"⟩ =
      ([Edit.appendLeft 20
        (spliceText (chars "p.ts")
          (getLineNumber (chars "useLogger(\x7ba: 1\x7d, \"x\x7d\")") 0))], true) := by
  refine ⟨by decide, by decide, by decide, ?_⟩
  exact claim5_amended (chars "useLogger(\x7ba: 1\x7d, \"x\x7d\")") (chars "p.ts")
    ⟨0, 10, "useLogger"⟩ 22 20 (by decide) (by decide) (by decide) (by decide)
    (by decide) (by decide)

/-- C6 counterexample: `withLogger(foo(a, b))` has a single argument whose
only comma is nested inside parentheses (zero top-level commas), yet the
rewriter leaves the file completely untouched — the HOC branch tests for any
comma, not a top-level one — contradicting the claim that such a call is
still rewritten. -/
theorem claim6_counterexample :
    transformCode (chars "withLogger(foo(a, b))") (chars "p.ts") = none ∧
    topCommaCount (chars "foo(a, b)") = 0 ∧
    (⟨0, 11, "withLogger"⟩ : RMatch) ∈
      hocMatches (chars "withLogger(foo(a, b))") ∧
    hocStep (chars "withLogger(foo(a, b))") (chars "p.ts")
      ⟨0, 11, "withLogger"⟩ = ([], false) := by
  refine ⟨by rfl, by decide, by decide, by decide⟩

/-- C6 amended: the HOC loop rewrites a discovered wrapping call exactly when
its trimmed argument text is non-empty and contains no comma character at
all (at any nesting depth), appending `, { __source: … }` before the close
paren; any comma — top-level or nested — leaves the call untouched. -/
theorem claim6_amended :
    ∀ (code path : List Char) (m : RMatch) (cp : Nat),
      isInsideStringOrComment code m.idx = false →
      findClosingParen code (m.stop - 1 + 1) = some cp →
      ((¬ trimJs (slice code (m.stop - 1 + 1) cp) = [] ∧
        (trimJs (slice code (m.stop - 1 + 1) cp)).contains ',' = false) →
        hocStep code path m =
          ([Edit.appendLeft cp
            (chars ", " ++ sourceObjText path (getLineNumber code m.idx))],
            true)) ∧
      (((trimJs (slice code (m.stop - 1 + 1) cp)).contains ',' = true ∨
        trimJs (slice code (m.stop - 1 + 1) cp) = []) →
        hocStep code path m = ([], false)) := by
  intro code path m cp hin hfcp
  constructor
  · intro ⟨hne, hcf⟩
    have hcf2 : ',' ∉ trimJs (slice code (m.stop - 1 + 1) cp) := by simpa using hcf
    simp [hocStep, hin, hfcp, hne, hcf2]
  · intro h
    rcases h with hct | hemp
    · have hct2 : ',' ∈ trimJs (slice code (m.stop - 1 + 1) cp) := by simpa using hct
      simp [hocStep, hin, hfcp, hct2]
    · simp [hocStep, hin, hfcp, hemp]

/-- C6 amended witness: `withLogger(Component)` (no comma) is rewritten,
`withLogger(foo(a, b))` (nested comma only) is not. -/
theorem claim6_witness :
    hocStep (chars "withLogger(Component)") (chars "p.ts")
      ⟨0, 11, "withLogger"⟩ =
      ([Edit.appendLeft 20
        (chars ", " ++
          sourceObjText (chars "p.ts")
            (getLineNumber (chars "withLogger(Component)") 0))], true) ∧
    hocStep (chars "withLogger(foo(a, b))") (chars "p.ts")
      ⟨0, 11, "withLogger"⟩ = ([], false) := by
  constructor
  · exact (claim6_amended (chars "withLogger(Component)") (chars "p.ts")
      ⟨0, 11, "withLogger"⟩ 20 (by decide) (by decide)).1 ⟨by decide, by decide⟩
  · exact (claim6_amended (chars "withLogger(foo(a, b))") (chars "p.ts")
      ⟨0, 11, "withLogger"⟩ 20 (by decide) (by decide)).2 (Or.inl (by decide))

/-- C9: whenever `includeSourcePath` is `false`, or `'auto'` while the
environment is not development, `shouldIncludeSourcePath` is false and
`getSourceLocation` returns the all-null record for every stack and every
skip count. -/
theorem claim9_gating (cfg : Config) (stack : Option (List Char)) (skip : Nat)
    (h : cfg.includeSourcePath = IncOpt.flag false ∨
        (cfg.includeSourcePath = IncOpt.auto ∧ cfg.environment ≠ Env.development)) :
    shouldIncludeSourcePath cfg = false ∧
    getSourceLocation cfg stack skip = nullLocation := by
  have hs : shouldIncludeSourcePath cfg = false := by
    rcases h with h | ⟨h1, h2⟩
    · simp [shouldIncludeSourcePath, h]
    · simp [shouldIncludeSourcePath, h1, h2]
  exact ⟨hs, by simp [getSourceLocation, hs]⟩

/-- C9 witness: with `'auto'` in a production environment the resolver
returns the all-null record without consulting the stack. -/
theorem claim9_witness :
    shouldIncludeSourcePath ⟨IncOpt.auto, Env.production⟩ = false ∧
    getSourceLocation ⟨IncOpt.auto, Env.production⟩
      (some (chars "Error\n    at Foo.bar (src/app.ts:12:4)")) 2 = nullLocation := by
  exact claim9_gating ⟨IncOpt.auto, Env.production⟩
    (some (chars "Error\n    at Foo.bar (src/app.ts:12:4)")) 2
    (Or.inr ⟨rfl, by decide⟩)

/-- The chrome location alternation either fills the path/line/column groups
or only the catch-all group. -/
theorem altB_shape (t : List Char) (g : LocG) (h : altB t = some g) :
    (∃ p d1 d2, g = ⟨some p, some d1, some d2, none⟩) ∨
    (∃ u, g = ⟨none, none, none, some u⟩) := by
  unfold altB at h
  cases hl : locMatch t true with
  | some x =>
    obtain ⟨p, d1, d2⟩ := x
    rw [hl] at h
    simp at h
    exact Or.inl ⟨p, d1, d2, h.symm⟩
  | none =>
    rw [hl] at h
    cases ha : alt2Match t with
    | some u =>
      rw [ha] at h
      simp at h
      exact Or.inr ⟨u, h.symm⟩
    | none => rw [ha] at h; simp at h

/-- The location captures of a successful chrome match come from the
alternation `altB`. -/
theorem chromeAfterAt_loc (t : List Char) (g : ChromeG)
    (h : chromeAfterAt t = some g) : ∃ u, altB u = some g.loc := by
  unfold chromeAfterAt at h
  cases hs :
      (List.range' 1 t.length).findSome? (fun e =>
        if (t.take e).all isDotC then
          let rest1 := t.drop e
          let w := (rest1.takeWhile isJsWs).length
          if 1 ≤ w ∧ rest1.get? w = some '(' then
            (altB (rest1.drop (w + 1))).map fun lg => ChromeG.mk (some (t.take e)) lg
          else none
        else none) with
  | some g' =>
    rw [hs] at h
    simp at h
    subst h
    obtain ⟨e, _, he⟩ := List.exists_of_findSome?_eq_some hs
    by_cases hd : (t.take e).all isDotC
    · rw [if_pos hd] at he
      simp only at he
      by_cases hw : 1 ≤ ((t.drop e).takeWhile isJsWs).length ∧
          (t.drop e).get? ((t.drop e).takeWhile isJsWs).length = some '('
      · rw [if_pos hw] at he
        cases hb : altB ((t.drop e).drop (((t.drop e).takeWhile isJsWs).length + 1)) with
        | some lg =>
          rw [hb] at he
          simp at he
          exact ⟨_, by rw [hb, ← he]⟩
        | none => rw [hb] at he; simp at he
      · rw [if_neg hw] at he; simp at he
    · rw [if_neg hd] at he; simp at he
  | none =>
    rw [hs] at h
    cases hb : altB t with
    | some lg =>
      rw [hb] at h
      simp at h
      exact ⟨t, by rw [hb, ← h]⟩
    | none => rw [hb] at h; simp at h

/-- The location captures of any successful chrome frame match come from the
alternation `altB`. -/
theorem chromeExec_loc (line : List Char) (g : ChromeG)
    (h : chromeExec line = some g) : ∃ u, altB u = some g.loc := by
  unfold chromeExec at h
  by_cases hat : subAt (line.dropWhile isJsWs) (chars "at") 0 = true
  · rw [if_pos hat] at h
    by_cases hw : 1 ≤ (((line.dropWhile isJsWs).drop 2).takeWhile isJsWs).length
    · rw [if_pos hw] at h
      obtain ⟨d, _, hd⟩ := List.exists_of_findSome?_eq_some h
      exact chromeAfterAt_loc _ g hd
    · rw [if_neg hw] at h; simp at h
  · rw [if_neg hat] at h; simp at h

/-- C7: the stack-frame parser tries the chrome, firefox and simple shapes in
that order and returns null exactly when none of them matches; the two
concrete example lines parse to the claimed frames; and when the chrome shape
matches without a `path:line:col` location (the catch-all branch), the
line/column fields are null rather than failing the line. -/
theorem claim7_stack_shapes :
    (∀ line, parseStackFrame line = none ↔
      (chromeExec line = none ∧ firefoxExec line = none ∧
        simpleExec line = none)) ∧
    parseStackFrame (chars "    at Foo.bar (src/app.ts:12:4)") =
      some ⟨some (chars "Foo.bar"), some (chars "app.ts"),
        some (chars "src/app.ts"), some 12, some 4⟩ ∧
    parseStackFrame (chars "bar@src/app.ts:12:4") =
      some ⟨some (chars "bar"), some (chars "app.ts"),
        some (chars "src/app.ts"), some 12, some 4⟩ ∧
    (∀ line g, chromeExec line = some g → g.loc.g2 = none →
      ∃ fr, parseStackFrame line = some fr ∧ fr.filePath = none ∧
        fr.lineNumber = none ∧ fr.columnNumber = none) := by
  refine ⟨?_, by decide, by decide, ?_⟩
  · intro line
    cases hc : chromeExec line with
    | some g => simp [parseStackFrame, hc]
    | none =>
      cases hf : firefoxExec line with
      | some x => obtain ⟨a, b, c, d⟩ := x; simp [parseStackFrame, hc, hf]
      | none =>
        cases hs : simpleExec line with
        | some x => obtain ⟨a, b, c⟩ := x; simp [parseStackFrame, hc, hf, hs]
        | none => simp [parseStackFrame, hc, hf, hs]
  · intro line g hg h2
    obtain ⟨u, hu⟩ := chromeExec_loc line g hg
    rcases altB_shape u g.loc hu with ⟨p, d1, d2, he⟩ | ⟨v, he⟩
    · rw [he] at h2; simp at h2
    · refine ⟨StackFrame.mk (orNullStr g.g1) none none none none, ?_, rfl, rfl, rfl⟩
      simp [parseStackFrame, hg, he, orNullStr]

/-- C7 witness: the chrome-shape line `    at foo (native)` matches through
the catch-all branch, and its frame has null path, line, and column. -/
theorem claim7_witness :
    chromeExec (chars "    at foo (native)") =
      some ⟨some (chars "foo"), ⟨none, none, none, some (chars "native")⟩⟩ ∧
    (∃ fr, parseStackFrame (chars "    at foo (native)") = some fr ∧
      fr.filePath = none ∧ fr.lineNumber = none ∧ fr.columnNumber = none) := by
  refine ⟨by decide, ?_⟩
  exact claim7_stack_shapes.2.2.2 (chars "    at foo (native)")
    ⟨some (chars "foo"), ⟨none, none, none, some (chars "native")⟩⟩
    (by decide) (by decide)

/-- C10: a chrome-shape line whose location part is not `path:digits:digits`
yields a frame with null filePath, lineNumber and columnNumber — the location
text is discarded — and `isInternalFrame` classifies every such frame as
internal; in particular for `    at foo (native)` and `    at <anonymous>`. -/
theorem claim10_nonlocation_internal :
    (∀ line g, chromeExec line = some g → g.loc.g2 = none →
      ∃ fr, parseStackFrame line = some fr ∧ fr.filePath = none ∧
        fr.lineNumber = none ∧ fr.columnNumber = none ∧
        isInternalFrame fr = true) ∧
    (parseStackFrame (chars "    at foo (native)") =
      some ⟨some (chars "foo"), none, none, none, none⟩ ∧
      isInternalFrame ⟨some (chars "foo"), none, none, none, none⟩ = true) ∧
    (parseStackFrame (chars "    at <anonymous>") =
      some ⟨none, none, none, none, none⟩ ∧
      isInternalFrame (⟨none, none, none, none, none⟩ : StackFrame) = true) := by
  refine ⟨?_, ⟨by decide, by decide⟩, ⟨by decide, by decide⟩⟩
  intro line g hg h2
  obtain ⟨u, hu⟩ := chromeExec_loc line g hg
  rcases altB_shape u g.loc hu with ⟨p, d1, d2, he⟩ | ⟨v, he⟩
  · rw [he] at h2; simp at h2
  · refine ⟨StackFrame.mk (orNullStr g.g1) none none none none, ?_, rfl, rfl, rfl, rfl⟩
    simp [parseStackFrame, hg, he, orNullStr]

/-- C10 witness: the chrome-shape line `    at <anonymous>` matches through
the catch-all branch and its frame is internal with null location fields. -/
theorem claim10_witness :
    chromeExec (chars "    at <anonymous>") =
      some ⟨none, ⟨none, none, none, some (chars "<anonymous>")⟩⟩ ∧
    (∃ fr, parseStackFrame (chars "    at <anonymous>") = some fr ∧
      fr.filePath = none ∧ fr.lineNumber = none ∧ fr.columnNumber = none ∧
      isInternalFrame fr = true) := by
  refine ⟨by decide, ?_⟩
  exact claim10_nonlocation_internal.1 (chars "    at <anonymous>")
    ⟨none, ⟨none, none, none, some (chars "<anonymous>")⟩⟩ (by decide) (by decide)

/-- When enough non-internal frames remain, the selection loop stops exactly
at the frame the non-internal filter puts at the position still to skip. -/
theorem selectGo_spec :
    ∀ (l : List StackFrame) (i skipped skip : Nat), skipped ≤ skip →
    skip - skipped < (l.filter (fun f => ! isInternalFrame f)).length →
    ∃ j fr, selectGo l i skipped skip = i + j ∧ l.get? j = some fr ∧
      (l.filter (fun f => ! isInternalFrame f)).get? (skip - skipped) = some fr ∧
      isInternalFrame fr = false := by
  intro l
  induction l with
  | nil => intro i skipped skip _ h2; simp at h2
  | cons f rest ih =>
    intro i skipped skip h1 h2
    by_cases hf : isInternalFrame f
    · have h2r : skip - skipped <
          (rest.filter (fun f => ! isInternalFrame f)).length := by
        simpa [List.filter_cons, hf] using h2
      obtain ⟨j, fr, hsel, hget, hfil, hint⟩ := ih (i + 1) skipped skip h1 h2r
      refine ⟨j + 1, fr, ?_, hget, ?_, hint⟩
      · rw [show selectGo (f :: rest) i skipped skip =
          selectGo rest (i + 1) skipped skip by simp [selectGo, hf]]
        rw [hsel]
        omega
      · rw [show (f :: rest).filter (fun f => ! isInternalFrame f) =
          rest.filter (fun f => ! isInternalFrame f) by simp [List.filter_cons, hf]]
        exact hfil
    · by_cases hss : skip ≤ skipped
      · have h0 : skip - skipped = 0 := by omega
        refine ⟨0, f, ?_, rfl, ?_, by simpa using hf⟩
        · simp [selectGo, hf, hss]
        · rw [h0, show (f :: rest).filter (fun f => ! isInternalFrame f) =
            f :: rest.filter (fun f => ! isInternalFrame f) by
              simp [List.filter_cons, hf]]
          rfl
      · have hflen : ((f :: rest).filter (fun f => ! isInternalFrame f)).length =
            (rest.filter (fun f => ! isInternalFrame f)).length + 1 := by
          simp [List.filter_cons, hf]
        have h2r : skip - (skipped + 1) <
            (rest.filter (fun f => ! isInternalFrame f)).length := by omega
        obtain ⟨j, fr, hsel, hget, hfil, hint⟩ :=
          ih (i + 1) (skipped + 1) skip (by omega) h2r
        refine ⟨j + 1, fr, ?_, hget, ?_, hint⟩
        · rw [show selectGo (f :: rest) i skipped skip =
            selectGo rest (i + 1) (skipped + 1) skip by simp [selectGo, hf, hss]]
          rw [hsel]
          omega
        · rw [show skip - skipped = (skip - (skipped + 1)) + 1 by omega,
            show (f :: rest).filter (fun f => ! isInternalFrame f) =
              f :: rest.filter (fun f => ! isInternalFrame f) by
                simp [List.filter_cons, hf]]
          exact hfil

/-- C8 amended: whenever source-path resolution is enabled and the parsed
frames contain more than `skipFrames` non-internal frames, the selected frame
is the `(skipFrames+1)`-th non-internal parsed frame — unparsable lines are
dropped, internal frames are skipped — and the record's fields are derived
from it.  When there are not enough non-internal frames the loop falls back
to index 0, which can select an internal frame (see the counterexample). -/
theorem claim8_amended (cfg : Config) (st : List Char) (skip : Nat)
    (hinc : shouldIncludeSourcePath cfg = true)
    (hlen : skip < (((splitOnChar '\n' st).filterMap parseStackFrame).filter
      (fun f => ! isInternalFrame f)).length) :
    ∃ fr,
      ((splitOnChar '\n' st).filterMap parseStackFrame).get?
        (selectIdx ((splitOnChar '\n' st).filterMap parseStackFrame) skip) =
        some fr ∧
      (((splitOnChar '\n' st).filterMap parseStackFrame).filter
        (fun f => ! isInternalFrame f)).get? skip = some fr ∧
      isInternalFrame fr = false ∧
      getSourceLocation cfg (some st) skip = buildResult fr := by
  obtain ⟨j, fr, hsel, hget, hfil, hint⟩ :=
    selectGo_spec ((splitOnChar '\n' st).filterMap parseStackFrame) 0 0 skip
      (Nat.zero_le skip) (by simpa using hlen)
  have hidx : selectIdx ((splitOnChar '\n' st).filterMap parseStackFrame) skip = j := by
    rw [selectIdx, hsel]; omega
  refine ⟨fr, by rw [hidx]; exact hget, by simpa using hfil, hint, ?_⟩
  rw [getSourceLocation]
  simp only [hinc]
  simp only [hidx, hget]
  simp

/-- C8 counterexample: a stack whose only parsable frame is internal
(`node_modules/a.js`) still produces a populated record — the selection loop
falls back to index 0 and the fields are derived from that internal frame —
so the selected frame is not always a non-internal one. -/
theorem claim8_counterexample :
    (splitOnChar '\n'
      (chars "Error\n    at foo (node_modules/a.js:1:2)")).filterMap
        parseStackFrame =
      [⟨some (chars "foo"), some (chars "a.js"),
        some (chars "node_modules/a.js"), some 1, some 2⟩] ∧
    isInternalFrame ⟨some (chars "foo"), some (chars "a.js"),
      some (chars "node_modules/a.js"), some 1, some 2⟩ = true ∧
    getSourceLocation ⟨IncOpt.flag true, Env.production⟩
      (some (chars "Error\n    at foo (node_modules/a.js:1:2)")) 0 =
      ⟨some [], some (chars "a.js"), some 1, some 2, some (chars "foo"),
        none, some (chars "node_modules/a.js")⟩ := by
  refine ⟨by decide, by decide, by decide⟩

/-- C8 witness: with one non-internal frame and `skipFrames = 0` the resolver
selects that frame and derives the record from it. -/
theorem claim8_witness :
    shouldIncludeSourcePath ⟨IncOpt.auto, Env.development⟩ = true ∧
    (0 : Nat) < ((((splitOnChar '\n'
      (chars "Error\n    at Foo.bar (src/app.ts:12:4)")).filterMap
        parseStackFrame).filter (fun f => ! isInternalFrame f)).length) ∧
    (∃ fr,
      ((splitOnChar '\n'
        (chars "Error\n    at Foo.bar (src/app.ts:12:4)")).filterMap
          parseStackFrame).get?
        (selectIdx ((splitOnChar '\n'
          (chars "Error\n    at Foo.bar (src/app.ts:12:4)")).filterMap
            parseStackFrame) 0) = some fr ∧
      (((splitOnChar '\n'
        (chars "Error\n    at Foo.bar (src/app.ts:12:4)")).filterMap
          parseStackFrame).filter (fun f => ! isInternalFrame f)).get? 0 =
        some fr ∧
      isInternalFrame fr = false ∧
      getSourceLocation ⟨IncOpt.auto, Env.development⟩
        (some (chars "Error\n    at Foo.bar (src/app.ts:12:4)")) 0 =
        buildResult fr) := by
  refine ⟨by decide, by decide, ?_⟩
  exact claim8_amended ⟨IncOpt.auto, Env.development⟩
    (chars "Error\n    at Foo.bar (src/app.ts:12:4)") 0 (by decide) (by decide)

end Loggerect
